import Mathlib

/-!
Verification of the meteo scheduling / resilient-fetch engine.

Shallow embedding of the repository's core components:
- `ExponentialBackoff.get_delay` (src/parsing/meteo.py, lines 44-65)
- `WeatherFetcher.fetch_with_retry` (src/parsing/meteo.py, lines 78-119)
- `get_weather` (src/parsing/meteo.py, lines 231-239)
- `Scheduler._get_delay_until` (src/parsing/scheduler.py, lines 138-161)
- `Scheduler._get_next_check_time` (src/parsing/scheduler.py, lines 163-178)
- `Scheduler.add_job` (src/parsing/scheduler.py, lines 75-105)
- `Scheduler._run_parser_task` (src/parsing/scheduler.py, lines 107-136)
- `Scheduler._format_weather_message` (src/parsing/scheduler.py, lines 217-316)

Python floats are modelled as rationals (ℚ); non-integer float literals
of the source (`0.1`, `0.2`) are written `mkRat 1 10`, `mkRat 1 5` so that
concrete instances stay kernel-computable.  The jitter draw
`random.uniform(-0.2, 0.2)` is modelled as an explicit parameter `u`
with `-0.2 ≤ u ≤ 0.2`.
-/

namespace Meteo

theorem q_one_tenth : (mkRat 1 10 : ℚ) = 1/10 := by
  norm_num [mkRat, Rat.normalize]

theorem q_one_fifth : (mkRat 1 5 : ℚ) = 1/5 := by
  norm_num [mkRat, Rat.normalize]

theorem q_six_fifths : (mkRat 6 5 : ℚ) = 6/5 := by
  norm_num [mkRat, Rat.normalize]

/-- Embedding of `ExponentialBackoff.get_delay` (meteo.py lines 44-65).

`if attempt >= self.max_retries: return self.max_delay`;
otherwise `exponential_delay = base_delay * 2 ** attempt`,
`delay = min(exponential_delay, max_delay)`,
`jitter = u * delay` for the uniform draw `u ∈ [-0.2, 0.2]`,
`final_delay = max(0.1, delay + jitter)`. -/
def get_delay (base_delay max_delay : ℚ) (max_retries : ℕ) (attempt : ℕ) (u : ℚ) : ℚ :=
  if max_retries ≤ attempt then max_delay
  else
    let exponential_delay := base_delay * 2 ^ attempt
    let delay := min exponential_delay max_delay
    let jitter := u * delay
    max (mkRat 1 10) (delay + jitter)

theorem get_delay_of_lt (b M : ℚ) (r a : ℕ) (u : ℚ) (h : a < r) :
    get_delay b M r a u =
      max (1/10) (min (b * 2 ^ a) M + u * min (b * 2 ^ a) M) := by
  unfold get_delay
  rw [if_neg (by omega), q_one_tenth]

theorem get_delay_lower (b M : ℚ) (r a : ℕ) (u : ℚ) (h : a < r) :
    1/10 ≤ get_delay b M r a u := by
  rw [get_delay_of_lt b M r a u h]
  exact le_max_left _ _

theorem get_delay_upper (b M : ℚ) (r a : ℕ) (u : ℚ)
    (h : a < r) (hu2 : u ≤ 1/5) (hu1 : -(1/5) ≤ u) (hM : 1/10 ≤ M) :
    get_delay b M r a u ≤ 6/5 * M := by
  rw [get_delay_of_lt b M r a u h]
  apply max_le
  · linarith
  · set d := min (b * 2 ^ a) M with hd
    have hdM : d ≤ M := min_le_right _ _
    rcases le_or_lt 0 d with h0 | h0
    · have hmul : u * d ≤ (1/5) * d := mul_le_mul_of_nonneg_right hu2 h0
      linarith
    · have h1u : (0:ℚ) ≤ 1 + u := by linarith
      have : d * (1 + u) ≤ 0 := mul_nonpos_of_nonpos_of_nonneg (le_of_lt h0) h1u
      nlinarith

theorem get_delay_upper_strong (b M : ℚ) (r a : ℕ) (u : ℚ)
    (h : a < r) (hu2 : u ≤ 1/5) (hu1 : -(1/5) ≤ u) (hM : 1/10 ≤ M)
    (hcap : 6/5 * (b * 2 ^ a) ≤ M) :
    get_delay b M r a u ≤ M := by
  rw [get_delay_of_lt b M r a u h]
  apply max_le
  · linarith
  · set x := b * 2 ^ a with hx
    set d := min x M with hd
    have hdx : d ≤ x := min_le_left _ _
    have hdM : d ≤ M := min_le_right _ _
    rcases le_or_lt 0 d with h0 | h0
    · have hmul : u * d ≤ (1/5) * d := mul_le_mul_of_nonneg_right hu2 h0
      linarith
    · have h1u : (0:ℚ) ≤ 1 + u := by linarith
      have : d * (1 + u) ≤ 0 := mul_nonpos_of_nonpos_of_nonneg (le_of_lt h0) h1u
      nlinarith

/-- C5: for every attempt with `attempt ≥ max_retries`, `get_delay` returns
exactly `max_delay`, regardless of the jitter draw `u`. -/
theorem claim_c5 (b M : ℚ) (r a : ℕ) (u : ℚ) (h : r ≤ a) :
    get_delay b M r a u = M := by
  unfold get_delay
  rw [if_pos h]

theorem claim_c5_witness :
    (4:ℕ) ≤ 5 ∧ get_delay 2 30 4 5 0 = 30 :=
  ⟨by decide, claim_c5 2 30 4 5 0 (by decide)⟩

/-- C1 counterexample: with `base_delay = 2`, `max_delay = 3`,
`max_retries = 4`, attempt `1 < 4` and jitter draw `u = 0.1 ∈ [-0.2, 0.2]`,
the computed delay is `min(4, 3) * 1.1 = 3.3 > max_delay`, so the claimed
upper bound `d ≤ max_delay` fails on `ExponentialBackoff.get_delay`. -/
theorem claim_c1_counterexample :
    (1:ℕ) < 4 ∧ -(mkRat 1 5) ≤ mkRat 1 10 ∧ (mkRat 1 10 : ℚ) ≤ mkRat 1 5 ∧
      ¬ (get_delay 2 3 4 1 (mkRat 1 10) ≤ 3) := by
  with_unfolding_all decide

/-- C1 (amended): for every attempt `< max_retries` and every jitter draw
`u ∈ [-0.2, 0.2]`, provided `max_delay ≥ 0.1`, the returned delay `d`
satisfies `0.1 ≤ d ≤ 1.2 * max_delay`; the original bound `d ≤ max_delay`
does hold whenever additionally `1.2 * (base_delay * 2 ^ attempt) ≤ max_delay`
(which covers both configurations instantiated in the repository:
base 2 / max 30 / retries 4, and base 1 / max 60 / retries 5). -/
theorem claim_c1_amended (b M : ℚ) (r a : ℕ) (u : ℚ)
    (h : a < r) (hu1 : -(mkRat 1 5) ≤ u) (hu2 : u ≤ mkRat 1 5)
    (hM : mkRat 1 10 ≤ M) :
    (mkRat 1 10 ≤ get_delay b M r a u ∧
      get_delay b M r a u ≤ mkRat 6 5 * M) ∧
      (mkRat 6 5 * (b * 2 ^ a) ≤ M → get_delay b M r a u ≤ M) := by
  rw [q_one_tenth] at hM ⊢
  rw [q_one_fifth] at hu1 hu2
  rw [q_six_fifths]
  exact ⟨⟨get_delay_lower b M r a u h, get_delay_upper b M r a u h hu2 hu1 hM⟩,
    fun hcap => get_delay_upper_strong b M r a u h hu2 hu1 hM hcap⟩

theorem claim_c1_amended_witness :
    ((2:ℕ) < 4 ∧ -(mkRat 1 5) ≤ (mkRat 1 10 : ℚ) ∧ (mkRat 1 10 : ℚ) ≤ mkRat 1 5 ∧
        (mkRat 1 10 : ℚ) ≤ 30) ∧
      ((mkRat 1 10 ≤ get_delay 2 30 4 2 (mkRat 1 10) ∧
          get_delay 2 30 4 2 (mkRat 1 10) ≤ mkRat 6 5 * 30) ∧
        (mkRat 6 5 * (2 * 2 ^ 2) ≤ 30 → get_delay 2 30 4 2 (mkRat 1 10) ≤ 30)) :=
  ⟨⟨by decide, by with_unfolding_all decide, by with_unfolding_all decide,
      by with_unfolding_all decide⟩,
   claim_c1_amended 2 30 4 2 (mkRat 1 10) (by decide) (by with_unfolding_all decide)
     (by with_unfolding_all decide) (by with_unfolding_all decide)⟩

/-! ## Scheduler: delay computation (`Scheduler._get_delay_until`)

An instant in the fixed Yakutsk timezone (UTC+9, no DST) is modelled as a
calendar day number plus seconds-of-day; `time_str` entries ("HH:MM") are
modelled as the second-of-day they denote. -/

/-- A timezone-aware instant in Asia/Yakutsk: `day` is the calendar day
(`now_yakutsk.date()`), `sod` the elapsed seconds of that day (a rational,
since Python datetimes carry microseconds). -/
structure YakutskTime where
  day : ℤ
  sod : ℚ
deriving DecidableEq

/-- Absolute time in seconds represented by a `YakutskTime`. -/
def YakutskTime.toSeconds (n : YakutskTime) : ℚ := n.day * 86400 + n.sod

/-- `target_time_yakutsk` before the past-check (scheduler.py lines 146-148):
today's date combined with the target time-of-day in the fixed zone. -/
def candidate (now : YakutskTime) (target : ℕ) : ℚ :=
  now.day * 86400 + target

/-- Embedding of `Scheduler._get_delay_until` (scheduler.py lines 138-161):
if the candidate instant is strictly before `now`, add one day
(`timedelta(days=1)`; 86400 s in a fixed-offset zone); return the difference
to `now` in seconds, floored at zero (`max(0, delay_seconds)`). -/
def get_delay_until (target : ℕ) (now : YakutskTime) : ℚ :=
  max 0 ((if candidate now target < now.toSeconds
          then candidate now target + 86400
          else candidate now target) - now.toSeconds)

/-- C2 counterexample: at `now` = 06:00:00.000000 exactly (day 0,
second-of-day 21600) with schedule entry "06:00" (second 21600), the
candidate equals `now`, so `candidate ≤ now` holds; but the code only
advances on the strict comparison `<`, so the scheduled instant is the
candidate itself, not 24 hours later. -/
theorem claim_c2_counterexample :
    candidate ⟨0, 21600⟩ 21600 ≤ YakutskTime.toSeconds ⟨0, 21600⟩ ∧
      (0:ℚ) ≤ 21600 ∧ (21600:ℚ) < 86400 ∧ (21600:ℕ) < 86400 ∧
      ¬ (YakutskTime.toSeconds ⟨0, 21600⟩ + get_delay_until 21600 ⟨0, 21600⟩ =
          candidate ⟨0, 21600⟩ 21600 + 86400) := by
  with_unfolding_all decide

/-- C2 (amended): for every time-of-day and every well-formed `now`, the
computed delay is non-negative; whenever the same-day candidate is
*strictly* earlier than `now`, the scheduled instant (`now` plus the
returned delay) is exactly 24 hours after that candidate; when the
candidate coincides with `now` the delay is `0` (the task fires
immediately instead of rolling over a day). -/
theorem claim_c2_amended (target : ℕ) (now : YakutskTime)
    (h1 : 0 ≤ now.sod) (h2 : now.sod < 86400) (h3 : target < 86400) :
    0 ≤ get_delay_until target now ∧
      (candidate now target < now.toSeconds →
        now.toSeconds + get_delay_until target now = candidate now target + 86400) ∧
      (candidate now target = now.toSeconds → get_delay_until target now = 0) := by
  refine ⟨le_max_left 0 _, ?_, ?_⟩
  · intro hlt
    unfold get_delay_until
    rw [if_pos hlt]
    have hc : now.day * 86400 ≤ candidate now target := by
      unfold candidate
      have : (0:ℚ) ≤ (target : ℚ) := by positivity
      linarith
    have hs : now.toSeconds < now.day * 86400 + 86400 := by
      unfold YakutskTime.toSeconds
      linarith
    have hpos : (0:ℚ) ≤ candidate now target + 86400 - now.toSeconds := by
      linarith
    rw [max_eq_right hpos]
    ring
  · intro heq
    unfold get_delay_until
    rw [if_neg (by rw [heq]; exact lt_irrefl _), heq]
    simp

theorem claim_c2_amended_witness :
    ((0:ℚ) ≤ 7200 ∧ (7200:ℚ) < 86400 ∧ (3600:ℕ) < 86400) ∧
      (0 ≤ get_delay_until 3600 ⟨0, 7200⟩ ∧
        (candidate ⟨0, 7200⟩ 3600 < YakutskTime.toSeconds ⟨0, 7200⟩ →
          YakutskTime.toSeconds ⟨0, 7200⟩ + get_delay_until 3600 ⟨0, 7200⟩ =
            candidate ⟨0, 7200⟩ 3600 + 86400) ∧
        (candidate ⟨0, 7200⟩ 3600 = YakutskTime.toSeconds ⟨0, 7200⟩ →
          get_delay_until 3600 ⟨0, 7200⟩ = 0)) :=
  ⟨⟨by with_unfolding_all decide, by with_unfolding_all decide, by decide⟩,
   claim_c2_amended 3600 ⟨0, 7200⟩ (by with_unfolding_all decide)
     (by with_unfolding_all decide) (by decide)⟩

/-! ## Scheduler: task registry (`Scheduler.add_job`,
`Scheduler._get_next_check_time`) -/

/-- A scheduled task as held in `self.tasks`: its configured time-of-day
(`task.time_str`, as second-of-day) and whether `task.done()` holds
(cancelled or completed). -/
structure STask where
  time_str : ℕ
  done : Bool
deriving DecidableEq

/-- The schedule list `Scheduler.add_job` selects (scheduler.py line 88):
the Sunday list when `now.weekday() == 6`, else the weekday list. -/
def add_job_schedule (weekdays sunday : List ℕ) (today : ℕ) : List ℕ :=
  if today = 6 then sunday else weekdays

/-- Embedding of the task-creation loop of `Scheduler.add_job`
(scheduler.py lines 84-97): one task is appended to `self.tasks` per entry
of the selected schedule list, and `tasks_added` counts them. -/
def add_job (tasks : List STask) (weekdays sunday : List ℕ) (today : ℕ) :
    List STask × ℕ :=
  (add_job_schedule weekdays sunday today).foldl
    (fun acc time_str => (acc.1 ++ [⟨time_str, false⟩], acc.2 + 1))
    (tasks, 0)

theorem add_job_go (l : List ℕ) :
    ∀ (ts : List STask) (n : ℕ),
      l.foldl (fun acc time_str => (acc.1 ++ [⟨time_str, false⟩], acc.2 + 1)) (ts, n)
        = (ts ++ l.map (fun t => (⟨t, false⟩ : STask)), n + l.length) := by
  induction l with
  | nil => intro ts n; simp
  | cons x xs ih =>
    intro ts n
    simp only [List.foldl_cons, List.map_cons, List.length_cons]
    rw [ih]
    simp [List.append_assoc]
    omega

/-- C7: registering a site creates its tasks from the Sunday list exactly
when the weekday at registration time is Sunday (`today = 6`) and from the
weekday list otherwise; exactly one (non-done) task is created per entry of
the selected list, duplicates included, and the count equals the list
length.  The selection depends only on `today` at the single `add_job`
call; the created tasks record only their `time_str`, so it is never
re-evaluated per firing. -/
theorem claim_c7 (tasks : List STask) (weekdays sunday : List ℕ) (today : ℕ) :
    (add_job tasks weekdays sunday today).1
        = tasks ++ (if today = 6 then sunday else weekdays).map
            (fun t => (⟨t, false⟩ : STask)) ∧
      (add_job tasks weekdays sunday today).2
        = (if today = 6 then sunday else weekdays).length := by
  unfold add_job add_job_schedule
  rw [add_job_go]
  exact ⟨rfl, by omega⟩

/-- The individually recomputed next firing instants of the non-cancelled
tasks: for each task with `¬ task.done()`, `datetime.now + its delay`
(scheduler.py lines 168-170). -/
def next_instants (tasks : List STask) (now : YakutskTime) : List ℚ :=
  (tasks.filter (fun t => !t.done)).map
    (fun t => now.toSeconds + get_delay_until t.time_str now)

/-- One step of the scan in `Scheduler._get_next_check_time` (scheduler.py
lines 166-173): for a task that is not done, compute its next instant and
keep it if it is the first one seen (`if not next_check`) or strictly
earlier than the best so far (`task_time_yakutsk < next_check`). -/
def gnct_step (now : YakutskTime) (next_check : Option ℚ) (task : STask) : Option ℚ :=
  if !task.done then
    match next_check with
    | none => some (now.toSeconds + get_delay_until task.time_str now)
    | some c =>
      if now.toSeconds + get_delay_until task.time_str now < c
      then some (now.toSeconds + get_delay_until task.time_str now)
      else some c
  else next_check

/-- Embedding of `Scheduler._get_next_check_time` (scheduler.py lines
163-178): scan `self.tasks` with `gnct_step`, starting from `None`. -/
def get_next_check_time (tasks : List STask) (now : YakutskTime) : Option ℚ :=
  tasks.foldl (gnct_step now) none

theorem gnct_fold_some (now : YakutskTime) :
    ∀ (tasks : List STask) (c : ℚ),
      tasks.foldl (gnct_step now) (some c)
        = some ((next_instants tasks now).foldl min c) := by
  intro tasks
  induction tasks with
  | nil => intro c; simp [next_instants]
  | cons t ts ih =>
    intro c
    rw [List.foldl_cons]
    by_cases hd : t.done
    · have hstep : gnct_step now (some c) t = some c := by
        simp [gnct_step, hd]
      have hfilter : next_instants (t :: ts) now = next_instants ts now := by
        simp [next_instants, List.filter_cons, hd]
      rw [hstep, ih, hfilter]
    · have hfilter : next_instants (t :: ts) now
          = (now.toSeconds + get_delay_until t.time_str now) :: next_instants ts now := by
        simp [next_instants, List.filter_cons, hd]
      have hstep : gnct_step now (some c) t
          = some (min c (now.toSeconds + get_delay_until t.time_str now)) := by
        simp only [gnct_step, hd, Bool.not_false, if_true]
        rcases lt_or_ge (now.toSeconds + get_delay_until t.time_str now) c with h | h
        · rw [if_pos h, min_comm, min_eq_left (le_of_lt h)]
        · rw [if_neg (not_lt.mpr h), min_eq_left h]
      rw [hstep, ih, hfilter, List.foldl_cons]

theorem gnct_eq (now : YakutskTime) :
    ∀ (tasks : List STask),
      get_next_check_time tasks now
        = match next_instants tasks now with
          | [] => none
          | v :: vs => some (vs.foldl min v) := by
  intro tasks
  induction tasks with
  | nil => simp [get_next_check_time, next_instants]
  | cons t ts ih =>
    by_cases hd : t.done
    · have h1 : get_next_check_time (t :: ts) now = get_next_check_time ts now := by
        unfold get_next_check_time
        rw [List.foldl_cons]
        have : gnct_step now none t = none := by simp [gnct_step, hd]
        rw [this]
      have h2 : next_instants (t :: ts) now = next_instants ts now := by
        simp [next_instants, List.filter_cons, hd]
      rw [h1, h2, ih]
    · have h2 : next_instants (t :: ts) now
          = (now.toSeconds + get_delay_until t.time_str now) :: next_instants ts now := by
        simp [next_instants, List.filter_cons, hd]
      unfold get_next_check_time
      rw [List.foldl_cons]
      have hstep : gnct_step now none t
          = some (now.toSeconds + get_delay_until t.time_str now) := by
        simp [gnct_step, hd]
      rw [hstep, gnct_fold_some now ts, h2]

theorem foldl_min_le_init : ∀ (vs : List ℚ) (v : ℚ), vs.foldl min v ≤ v := by
  intro vs
  induction vs with
  | nil => intro v; simp
  | cons w ws ih =>
    intro v
    rw [List.foldl_cons]
    exact le_trans (ih (min v w)) (min_le_left v w)

theorem foldl_min_mem : ∀ (vs : List ℚ) (v : ℚ), vs.foldl min v ∈ v :: vs := by
  intro vs
  induction vs with
  | nil => intro v; simp
  | cons w ws ih =>
    intro v
    rw [List.foldl_cons]
    have h := ih (min v w)
    rw [List.mem_cons] at h
    rcases h with h | h
    · rcases min_choice v w with hm | hm
      · rw [h, hm]
        exact List.mem_cons_self _ _
      · rw [h, hm]
        exact List.mem_cons_of_mem _ (List.mem_cons_self _ _)
    · exact List.mem_cons_of_mem _ (List.mem_cons_of_mem _ h)

theorem foldl_min_le : ∀ (vs : List ℚ) (v y : ℚ), y ∈ v :: vs → vs.foldl min v ≤ y := by
  intro vs
  induction vs with
  | nil =>
    intro v y hy
    rw [List.mem_cons] at hy
    rcases hy with hy | hy
    · rw [List.foldl_nil, hy]
    · simp at hy
  | cons w ws ih =>
    intro v y hy
    rw [List.foldl_cons]
    rw [List.mem_cons] at hy
    rcases hy with hy | hy
    · rw [hy]
      exact le_trans (foldl_min_le_init ws (min v w)) (min_le_left v w)
    · rw [List.mem_cons] at hy
      rcases hy with hy | hy
      · rw [hy]
        exact le_trans (foldl_min_le_init ws (min v w)) (min_le_right v w)
      · exact ih (min v w) y (List.mem_cons.mpr (Or.inr hy))

/-- C8: `_get_next_check_time` returns `none` on an empty task list, and
whenever at least one non-cancelled task exists it returns the minimum,
over all non-cancelled tasks, of each task's individually recomputed next
firing instant. -/
theorem claim_c8 (now : YakutskTime) :
    get_next_check_time [] now = none ∧
      ∀ tasks : List STask, next_instants tasks now ≠ [] →
        ∃ m, get_next_check_time tasks now = some m ∧
          m ∈ next_instants tasks now ∧
          ∀ y ∈ next_instants tasks now, m ≤ y := by
  constructor
  · rfl
  · intro tasks hne
    rw [gnct_eq now tasks]
    rcases hv : next_instants tasks now with _ | ⟨v, vs⟩
    · exact absurd hv hne
    · exact ⟨vs.foldl min v, rfl, foldl_min_mem vs v, fun y hy => foldl_min_le vs v y hy⟩

theorem claim_c8_witness :
    (next_instants [⟨21600, false⟩, ⟨3600, false⟩] ⟨0, 0⟩ ≠ []) ∧
      (∃ m, get_next_check_time [⟨21600, false⟩, ⟨3600, false⟩] ⟨0, 0⟩ = some m ∧
        m ∈ next_instants [⟨21600, false⟩, ⟨3600, false⟩] ⟨0, 0⟩ ∧
        ∀ y ∈ next_instants [⟨21600, false⟩, ⟨3600, false⟩] ⟨0, 0⟩, m ≤ y) :=
  ⟨by with_unfolding_all decide,
   (claim_c8 ⟨0, 0⟩).2 [⟨21600, false⟩, ⟨3600, false⟩] (by with_unfolding_all decide)⟩

/-! ## `WeatherFetcher.fetch_with_retry` and `get_weather`

The network/parse effect of attempt `i`, performed with timeout `t`, is
modelled by an oracle `step i t : Except E (Option R)`: `Except.error e`
is a raised retryable exception, `Except.ok r` the value returned by
`parse_weather_response` (which may itself be `none`).  `fetch_go`
records the timeout of every attempt actually performed, together with
the overall outcome (`Except.error e` models the final `raise`). -/

/-- Embedding of the retry loop of `WeatherFetcher.fetch_with_retry`
(meteo.py lines 84-119): for `attempt in range(max_retries)`, use timeout
`10 + attempt * 5`; on success return the parsed value; on a retryable
exception re-raise if this was the last attempt, otherwise sleep and try
the next attempt; if the loop itself completes (only possible with
`max_retries = 0`), return `None`. -/
def fetch_go {E R : Type} (step : ℕ → ℕ → Except E (Option R))
    (max_retries : ℕ) (attempt : ℕ) : List ℕ × Except E (Option R) :=
  if h : attempt < max_retries then
    match step attempt (10 + attempt * 5) with
    | Except.ok r => ([10 + attempt * 5], Except.ok r)
    | Except.error e =>
      if attempt = max_retries - 1 then ([10 + attempt * 5], Except.error e)
      else
        ((10 + attempt * 5) :: (fetch_go step max_retries (attempt + 1)).1,
          (fetch_go step max_retries (attempt + 1)).2)
  else ([], Except.ok none)
termination_by max_retries - attempt
decreasing_by omega

/-- `WeatherFetcher.fetch_with_retry` starts the loop at attempt 0; the
repository instantiates `max_retries = 4`. -/
def fetch_with_retry {E R : Type} (max_retries : ℕ)
    (step : ℕ → ℕ → Except E (Option R)) : List ℕ × Except E (Option R) :=
  fetch_go step max_retries 0

theorem timeout_fun_shift (i : ℕ) :
    ((fun j : ℕ => 10 + (i + j) * 5) ∘ Nat.succ)
      = (fun j : ℕ => 10 + ((i + 1) + j) * 5) := by
  funext j
  simp only [Function.comp_apply]
  omega

theorem timeout_fun_zero :
    (fun j : ℕ => 10 + (0 + j) * 5) = (fun j : ℕ => 10 + j * 5) := by
  funext j
  omega

theorem fetch_go_trace {E R : Type} (step : ℕ → ℕ → Except E (Option R)) (m : ℕ) :
    ∀ (fuel i : ℕ), m - i = fuel →
      ∃ k, k ≤ m - i ∧
        (fetch_go step m i).1 = (List.range k).map (fun j => 10 + (i + j) * 5) := by
  intro fuel
  induction fuel with
  | zero =>
    intro i hfi
    have hni : ¬ i < m := by omega
    rw [fetch_go]
    rw [dif_neg hni]
    exact ⟨0, by omega, by simp⟩
  | succ fuel ih =>
    intro i hfi
    have hi : i < m := by omega
    rw [fetch_go, dif_pos hi]
    cases hstep : step i (10 + i * 5) with
    | ok r =>
      refine ⟨1, by omega, ?_⟩
      simp only [show List.range 1 = [0] from rfl, List.map_cons, List.map_nil,
        Nat.add_zero]
    | error e =>
      dsimp only
      by_cases hlast : i = m - 1
      · rw [if_pos hlast]
        refine ⟨1, by omega, ?_⟩
        simp only [show List.range 1 = [0] from rfl, List.map_cons, List.map_nil,
          Nat.add_zero]
      · rw [if_neg hlast]
        obtain ⟨k, hk, htr⟩ := ih (i + 1) (by omega)
        refine ⟨k + 1, by omega, ?_⟩
        dsimp only
        rw [htr]
        simp only [List.range_succ_eq_map, List.map_cons, List.map_map, Nat.add_zero]
        rw [timeout_fun_shift i]

theorem fetch_go_all_fail {E R : Type} (step : ℕ → ℕ → Except E (Option R))
    (m : ℕ) (err : ℕ → E) :
    ∀ (fuel i : ℕ), m - i = fuel → i < m →
      (∀ k, i ≤ k → k < m → step k (10 + k * 5) = Except.error (err k)) →
      fetch_go step m i
        = ((List.range (m - i)).map (fun j => 10 + (i + j) * 5),
            Except.error (err (m - 1))) := by
  intro fuel
  induction fuel with
  | zero => intro i hfi hi; omega
  | succ fuel ih =>
    intro i hfi hi hfail
    rw [fetch_go, dif_pos hi]
    rw [hfail i (le_refl i) hi]
    dsimp only
    by_cases hlast : i = m - 1
    · rw [if_pos hlast]
      have h1 : m - i = 1 := by omega
      rw [h1]
      simp only [show List.range 1 = [0] from rfl, List.map_cons, List.map_nil,
        Nat.add_zero]
      rw [hlast]
    · rw [if_neg hlast]
      have hrec := ih (i + 1) (by omega) (by omega)
        (fun k hk1 hk2 => hfail k (by omega) hk2)
      rw [hrec]
      dsimp only
      have hn : m - i = (m - (i + 1)) + 1 := by omega
      rw [hn]
      simp only [List.range_succ_eq_map, List.map_cons, List.map_map, Nat.add_zero]
      rw [timeout_fun_shift i]

theorem fetch_with_retry_all_fail {E R : Type} (step : ℕ → ℕ → Except E (Option R))
    (m : ℕ) (err : ℕ → E) (hm : 1 ≤ m)
    (hfail : ∀ k, k < m → step k (10 + k * 5) = Except.error (err k)) :
    fetch_with_retry m step
      = ((List.range m).map (fun j => 10 + j * 5), Except.error (err (m - 1))) := by
  unfold fetch_with_retry
  rw [fetch_go_all_fail step m err (m - 0) 0 rfl (by omega)
    (fun k hk1 hk2 => hfail k hk2)]
  rw [timeout_fun_zero, Nat.sub_zero]

/-- C6: `fetch_with_retry` performs at most `max_retries` attempts; the
attempts actually performed use timeouts `10, 15, 20, 25, …`
(attempt `i` uses `10 + 5·i`); and when every attempt fails with a
retryable error, the exception of the final attempt (`max_retries - 1`)
is re-raised to the caller rather than swallowed. -/
theorem claim_c6 {E R : Type} (step : ℕ → ℕ → Except E (Option R))
    (m : ℕ) (err : ℕ → E) :
    (∃ k, k ≤ m ∧
        (fetch_with_retry m step).1 = (List.range k).map (fun j => 10 + j * 5)) ∧
      (fetch_with_retry m step).1.length ≤ m ∧
      (1 ≤ m → (∀ k, k < m → step k (10 + k * 5) = Except.error (err k)) →
        fetch_with_retry m step
          = ((List.range m).map (fun j => 10 + j * 5), Except.error (err (m - 1)))) := by
  obtain ⟨k, hk, htr⟩ := fetch_go_trace step m (m - 0) 0 rfl
  have htr' : (fetch_with_retry m step).1 = (List.range k).map (fun j => 10 + j * 5) := by
    unfold fetch_with_retry
    rw [htr, timeout_fun_zero]
  refine ⟨⟨k, by omega, htr'⟩, ?_, ?_⟩
  · rw [htr']
    simp only [List.length_map, List.length_range]
    omega
  · intro hm hfail
    exact fetch_with_retry_all_fail step m err hm hfail

theorem claim_c6_witness :
    ((1:ℕ) ≤ 4 ∧ ∀ k, k < 4 → (fun i t => (Except.error i : Except ℕ (Option ℕ))) k (10 + k * 5) = Except.error k) ∧
      ((∃ kk, kk ≤ 4 ∧
          (fetch_with_retry 4 (fun i t => (Except.error i : Except ℕ (Option ℕ)))).1
            = (List.range kk).map (fun j => 10 + j * 5)) ∧
        (fetch_with_retry 4 (fun i t => (Except.error i : Except ℕ (Option ℕ)))).1.length ≤ 4 ∧
        ((1:ℕ) ≤ 4 →
          (∀ k, k < 4 → (fun i t => (Except.error i : Except ℕ (Option ℕ))) k (10 + k * 5) = Except.error k) →
          fetch_with_retry 4 (fun i t => (Except.error i : Except ℕ (Option ℕ)))
            = ((List.range 4).map (fun j => 10 + j * 5), Except.error 3))) :=
  ⟨⟨by decide, fun k hk => rfl⟩,
   claim_c6 (fun i t => (Except.error i : Except ℕ (Option ℕ))) 4 (fun i => i)⟩

/-- Embedding of `get_weather` (meteo.py lines 231-239): call
`fetch_with_retry` inside `try`; any raised exception is caught and
converted to `None`; otherwise the fetched value (itself possibly `None`)
is returned unchanged. -/
def get_weather (E R : Type) (fetch_result : Except E (Option R)) : Option R :=
  match fetch_result with
  | Except.ok r => r
  | Except.error _ => none

/-- C10: `get_weather` is total with respect to exceptions: every fetch
outcome — a returned record, a returned `None`, or a raised exception —
maps to either a record or `None`, never to a propagated exception; in
particular exhaustion of all retries (every attempt failing) is observable
only as a `None` result. -/
theorem claim_c10 (E R : Type) :
    (∀ fr : Except E (Option R),
        get_weather E R fr = none ∨ ∃ r, get_weather E R fr = some r) ∧
      (∀ e : E, get_weather E R (Except.error e) = none) ∧
      (∀ (step : ℕ → ℕ → Except E (Option R)) (err : ℕ → E) (m : ℕ),
        1 ≤ m → (∀ k, k < m → step k (10 + k * 5) = Except.error (err k)) →
        get_weather E R (fetch_with_retry m step).2 = none) := by
  refine ⟨?_, fun e => rfl, ?_⟩
  · intro fr
    cases fr with
    | error e => exact Or.inl rfl
    | ok r =>
      cases r with
      | none => exact Or.inl rfl
      | some v => exact Or.inr ⟨v, rfl⟩
  · intro step err m hm hfail
    rw [fetch_with_retry_all_fail step m err hm hfail]
    rfl

theorem claim_c10_witness :
    ((1:ℕ) ≤ 4 ∧
        ∀ k, k < 4 → (fun i t => (Except.error i : Except ℕ (Option ℕ))) k (10 + k * 5) = Except.error k) ∧
      get_weather ℕ ℕ (fetch_with_retry 4 (fun i t => (Except.error i : Except ℕ (Option ℕ)))).2 = none :=
  ⟨⟨by decide, fun k hk => rfl⟩,
   (claim_c10 ℕ ℕ).2.2 (fun i t => (Except.error i : Except ℕ (Option ℕ)))
     (fun i => i) 4 (by decide) (fun k hk => rfl)⟩

/-! ## `Scheduler._run_parser_task`: the perpetual task loop

One loop iteration: compute the delay and sleep, fire the parser, handle
the outcome inside `try/except Exception`, always log the next check time
(`finally`), then sleep the fixed 3-second cooldown.  The observable
actions of an iteration are recorded as a list of events; the `Option E`
component is an exception escaping the iteration (which would terminate
the `while True` loop). -/

inductive TaskEvent : Type
  | slept (d : ℚ)
  | fired
  | notified
  | warned
  | error_logged
  | next_logged
  | cooldown (d : ℚ)
deriving DecidableEq

/-- The `try` block body (scheduler.py lines 116-123): fetch, then notify
on data, warn on empty data; a raised exception aborts the block. -/
def try_body {E D : Type} (outcome : Except E (Option D)) : List TaskEvent × Option E :=
  match outcome with
  | Except.ok (some _) => ([TaskEvent.notified], none)
  | Except.ok none => ([TaskEvent.warned], none)
  | Except.error e => ([], some e)

/-- The `except Exception` handler (scheduler.py lines 124-125): any
exception from the block is logged and swallowed. -/
def catch_all {E : Type} : List TaskEvent × Option E → List TaskEvent × Option E
  | (evs, some _) => (evs ++ [TaskEvent.error_logged], none)
  | (evs, none) => (evs, none)

/-- One iteration of the `while True` loop of `_run_parser_task`
(scheduler.py lines 111-136): sleep until the scheduled instant, fire,
run the guarded block, log the next check (`finally`), sleep 3 seconds. -/
def task_iteration {E D : Type} (delay : ℚ) (outcome : Except E (Option D)) :
    List TaskEvent × Option E :=
  ((TaskEvent.slept delay :: TaskEvent.fired :: (catch_all (try_body outcome)).1)
      ++ [TaskEvent.next_logged, TaskEvent.cooldown 3],
    (catch_all (try_body outcome)).2)

/-- `_run_parser_task` run for `n` iterations against arbitrary per-firing
delays and fetch/notify outcomes; `none` models the loop having been
terminated early by an escaping exception. -/
def run_task {E D : Type} (delays : ℕ → ℚ) (outcomes : ℕ → Except E (Option D)) :
    ℕ → Option (List (List TaskEvent))
  | 0 => some []
  | n + 1 =>
    match run_task delays outcomes n with
    | none => none
    | some trs =>
      match (task_iteration (delays n) (outcomes n)).2 with
      | some _ => none
      | none => some (trs ++ [(task_iteration (delays n) (outcomes n)).1])

theorem task_iteration_no_escape {E D : Type} (delay : ℚ) (outcome : Except E (Option D)) :
    (task_iteration delay outcome).2 = none := by
  unfold task_iteration
  cases outcome with
  | error e => rfl
  | ok r => cases r with
    | none => rfl
    | some v => rfl

theorem task_iteration_last {E D : Type} (delay : ℚ) (outcome : Except E (Option D)) :
    (task_iteration delay outcome).1.getLast? = some (TaskEvent.cooldown 3) := by
  unfold task_iteration
  rw [List.getLast?_append]
  rfl

/-- C9: for every sequence of per-firing delays and every sequence of
fetch/notify outcomes (including arbitrary raised exceptions), the task
loop completes any number `n` of iterations — no failure ever escapes an
iteration and terminates the recurring task — and every iteration ends
with the fixed 3-second cooldown after the notification/error handling. -/
theorem claim_c9 {E D : Type} (delays : ℕ → ℚ) (outcomes : ℕ → Except E (Option D)) :
    ∀ n : ℕ, ∃ trs,
      run_task delays outcomes n = some trs ∧
        trs.length = n ∧
        ∀ tr ∈ trs, tr.getLast? = some (TaskEvent.cooldown 3) := by
  intro n
  induction n with
  | zero => exact ⟨[], rfl, rfl, by intro tr h; cases h⟩
  | succ n ih =>
    obtain ⟨trs, hrun, hlen, hlast⟩ := ih
    refine ⟨trs ++ [(task_iteration (delays n) (outcomes n)).1], ?_, ?_, ?_⟩
    · unfold run_task
      rw [hrun, task_iteration_no_escape]
    · simp [hlen]
    · intro tr htr
      rw [List.mem_append] at htr
      rcases htr with h | h
      · exact hlast tr h
      · rw [List.mem_singleton] at h
        rw [h]
        exact task_iteration_last (delays n) (outcomes n)

/-! ## `Scheduler._format_weather_message` (scheduler.py lines 217-316)

The weather record handed to the formatter is the dictionary produced by
`WeatherFetcher.parse_weather_response`; every field is a formatted string
or the sentinel "N/A".  The current Yakutsk time enters as weekday
(`weekday()`, Monday = 0 … Sunday = 6), hour and minute. -/

/-- The weather dictionary of `parse_weather_response`
(meteo.py lines 180-192). -/
structure WeatherData where
  location : String
  observation_time : String
  temperature : String
  min_temperature : String
  humidity : String
  wind_direction : String
  wind_speed : String
  pressure : String
  precipitation : String
  cloudiness : String
  visibility : String

/-- Python's `pat in s` substring test, via `splitOn` (nonempty pattern). -/
def str_contains (s pat : String) : Bool :=
  (s.splitOn pat).length != 1

/-- `format_value` (scheduler.py lines 227-230): replace the "N/A"
sentinel by the localized marker. -/
def format_value (value : String) : String :=
  if value = "N/A" then "н/д" else value

/-- The cloudiness re-inflection (scheduler.py lines 233-249): when the
field contains "балл", parse the leading count and re-render it with the
Russian plural form selected by the last two digits; on any parse failure
(`ValueError`/`IndexError`) keep the string unchanged. -/
def format_cloudiness (cloudiness : String) : String :=
  if cloudiness ≠ "N/A" ∧ str_contains cloudiness "балл" = true then
    match ((cloudiness.split (fun c => c = ' ')).filter (fun w => w ≠ "")).head? with
    | none => cloudiness
    | some tok =>
      match tok.toInt? with
      | none => cloudiness
      | some cloud_value =>
        if cloud_value % 10 = 1 ∧ cloud_value % 100 ≠ 11 then
          toString cloud_value ++ " балл"
        else if 2 ≤ cloud_value % 10 ∧ cloud_value % 10 ≤ 4 ∧
            (cloud_value % 100 < 10 ∨ 20 ≤ cloud_value % 100) then
          toString cloud_value ++ " балла"
        else
          toString cloud_value ++ " баллов"
  else cloudiness

/-- The wind rendering (scheduler.py lines 252-262). -/
def wind_info (wind_direction wind_speed : String) : String :=
  let d := format_value wind_direction
  let s := format_value wind_speed
  if d = "н/д" ∧ s = "н/д" then "н/д"
  else if d = "н/д" then s
  else if s = "н/д" then d
  else d ++ ", " ++ s

/-- `strptime(obs, "%d.%m.%Y %H:%M").strftime("%H:%M")` (scheduler.py
lines 219-221) on a well-formed timestamp: the part after the space. -/
def obs_time_hhmm (observation_time : String) : String :=
  (observation_time.splitOn " ").getD 1 ""

/-- Models Python `float()` on the plain signed decimal numerals produced
by the weather page (e.g. "-46.0", "-46"); other float syntaxes accepted
by Python (exponents, bare fractions) do not occur in the data. -/
def parse_float? (s : String) : Option ℚ :=
  match s.splitOn "." with
  | [a] => (a.toInt?).map (fun z => (z : ℚ))
  | [a, b] =>
    match a.toInt?, b.toNat? with
    | some z, some f =>
      some (if a.startsWith "-"
            then (z : ℚ) - (f : ℚ) / (10 : ℚ) ^ b.length
            else (z : ℚ) + (f : ℚ) / (10 : ℚ) ^ b.length)
    | _, _ => none
  | _ => none

/-- The temperature conversion guarded by `try/except ValueError`
(scheduler.py lines 284-290): strip "°C", strip whitespace, `float()`;
`none` models the `ValueError` path (`temperature = None`). -/
def parse_temperature (temperature : String) : Option ℚ :=
  parse_float? ((temperature.replace "°C" "").trim)

/-- The four alert-annex temperature tiers (scheduler.py lines 295-314). -/
inductive Tier : Type
  | t45
  | t48
  | t50
  | t52
deriving DecidableEq

/-- The grade-range label of each tier. -/
def tier_label : Tier → String
  | Tier.t45 => "1-4 классы"
  | Tier.t48 => "1-7 классы"
  | Tier.t50 => "1-9 классы"
  | Tier.t52 => "1-11 классы"

/-- The annex text appended for a tier (scheduler.py lines 296-299 etc.). -/
def annex_for (observation_time : String) (t : Tier) : String :=
  "По данным наблюдения на " ++ observation_time ++ ":\n" ++
    "Актированный день: " ++ tier_label t ++ "."

/-- The `if/elif` tier chain (scheduler.py lines 295-314), evaluated
first-match. -/
def select_tier (temperature : ℚ) : Option Tier :=
  if temperature ≤ -45 then some Tier.t45
  else if temperature ≤ -48 then some Tier.t48
  else if temperature ≤ -50 then some Tier.t50
  else if temperature ≤ -52 then some Tier.t52
  else none

/-- The annex appended to the base message (scheduler.py lines 277-314):
only when the weekday is not Sunday and the time is within 06:00-07:30
(`hour == 6 or (hour == 7 and minute <= 30)`); then, if the temperature
parses and is ≤ −45, two newlines followed by the first-match tier text. -/
def annex_part (w : WeatherData) (today hour minute : ℕ) : String :=
  if today ≠ 6 ∧ (hour = 6 ∨ (hour = 7 ∧ minute ≤ 30)) then
    match parse_temperature w.temperature with
    | some temperature =>
      if temperature ≤ -45 then
        "\n\n" ++ (match select_tier temperature with
                   | some t => annex_for (obs_time_hhmm w.observation_time) t
                   | none => "")
      else ""
    | none => ""
  else ""

/-- The fixed message template (scheduler.py lines 265-275). -/
def base_message (w : WeatherData) (current_date : String) : String :=
  "Погода в с." ++ w.location ++ " на " ++ current_date ++ "\n" ++
  "Время наблюдения: " ++ obs_time_hhmm w.observation_time ++ "\n\n" ++
  "Температура воздуха: " ++ w.temperature ++ "\n" ++
  "Относительная влажность: " ++ format_value w.humidity ++ "\n" ++
  "Атмосферное давление: " ++ format_value w.pressure ++ "\n" ++
  "Осадки: " ++ format_value w.precipitation ++ "\n" ++
  "Облачность: " ++ format_value (format_cloudiness w.cloudiness) ++ "\n" ++
  "Ветер: " ++ wind_info w.wind_direction w.wind_speed ++ "\n\n" ++
  "Подробнее: https://meteoinfo.ru/pogoda/russia/republic-saha-yakutia/ytyk-kel"

/-- Embedding of `Scheduler._format_weather_message`: the base template
followed by the (possibly empty) alert annex. -/
def format_weather_message (w : WeatherData) (current_date : String)
    (today hour minute : ℕ) : String :=
  base_message w current_date ++ annex_part w today hour minute

theorem string_append_eq_self_iff (s a : String) : s ++ a = s ↔ a = "" := by
  constructor
  · intro h
    have hd : s.data ++ a.data = s.data ++ ([] : List Char) := by
      rw [List.append_nil, ← String.data_append, h]
    have hnil : a.data = [] := List.append_cancel_left hd
    exact String.ext hnil
  · intro h
    rw [h]
    exact String.append_empty s

theorem newlines_append_ne_empty (x : String) : ("\n\n" ++ x) ≠ "" := by
  intro h
  have hlen := congrArg String.length h
  rw [String.length_append] at hlen
  have h2 : ("\n\n").length = 2 := rfl
  have h0 : ("" : String).length = 0 := rfl
  omega

/-- C3: whenever the annex conditions hold (weekday ≠ Sunday, time within
06:00-07:30) and the parsed temperature is ≤ −45 — however cold — the
appended annex is always the −45 tier text ("Актированный день: 1-4
классы."); and the first-match `if/elif` chain can never select the −48,
−50 or −52 tier for any temperature. -/
theorem claim_c3 :
    (∀ (w : WeatherData) (today hour minute : ℕ) (t : ℚ),
        parse_temperature w.temperature = some t → t ≤ -45 → today ≠ 6 →
        (hour = 6 ∨ (hour = 7 ∧ minute ≤ 30)) →
        annex_part w today hour minute
          = "\n\n" ++ annex_for (obs_time_hhmm w.observation_time) Tier.t45) ∧
      (∀ t : ℚ, select_tier t ≠ some Tier.t48 ∧ select_tier t ≠ some Tier.t50 ∧
        select_tier t ≠ some Tier.t52) := by
  constructor
  · intro w today hour minute t hparse ht h6 hw
    unfold annex_part
    rw [if_pos ⟨h6, hw⟩, hparse]
    dsimp only
    rw [if_pos ht]
    unfold select_tier
    rw [if_pos ht]
  · intro t
    unfold select_tier
    by_cases h45 : t ≤ -45
    · rw [if_pos h45]
      refine ⟨?_, ?_, ?_⟩ <;> simp
    · have h48 : ¬ t ≤ -48 := fun hc => h45 (by linarith)
      have h50 : ¬ t ≤ -50 := fun hc => h45 (by linarith)
      have h52 : ¬ t ≤ -52 := fun hc => h45 (by linarith)
      rw [if_neg h45, if_neg h48, if_neg h50, if_neg h52]
      refine ⟨?_, ?_, ?_⟩ <;> simp

/-- A concrete weather record as produced by `parse_weather_response`,
with a −46.0 °C reading. -/
def sample_record : WeatherData :=
  ⟨"Ытык-Кюель", "12.01.2026 06:00", "-46.0°C", "-47.2°C", "78%",
    "С", "2 м/с", "760 мм рт.ст.", "Без осадков", "10 баллов", "4 км"⟩

theorem claim_c3_witness :
    (parse_temperature sample_record.temperature = some (-46) ∧
        (-46 : ℚ) ≤ -45 ∧ (0 : ℕ) ≠ 6 ∧
        ((6 : ℕ) = 6 ∨ ((6 : ℕ) = 7 ∧ (15 : ℕ) ≤ 30))) ∧
      annex_part sample_record 0 6 15
        = "\n\n" ++ annex_for (obs_time_hhmm sample_record.observation_time) Tier.t45 ∧
      select_tier (-50) ≠ some Tier.t50 :=
  ⟨⟨by with_unfolding_all decide, by with_unfolding_all decide, by decide,
      Or.inl rfl⟩,
   claim_c3.1 sample_record 0 6 15 (-46) (by with_unfolding_all decide)
     (by with_unfolding_all decide) (by decide) (Or.inl rfl),
   (claim_c3.2 (-50)).2.1⟩

/-- C4: the formatted message differs from the bare template — i.e.
carries an alert annex — exactly when all three conditions hold at
formatting time: weekday ≠ Sunday, time within the 06:00-07:30 window,
and parsed temperature ≤ −45.  In particular a −46.0 °C record formatted
Monday 06:15 includes the annex and the same record at 08:00 does not. -/
theorem claim_c4 (w : WeatherData) (current_date : String)
    (today hour minute : ℕ) (t : ℚ)
    (hparse : parse_temperature w.temperature = some t) :
    format_weather_message w current_date today hour minute
        ≠ base_message w current_date
      ↔ (today ≠ 6 ∧ (hour = 6 ∨ (hour = 7 ∧ minute ≤ 30)) ∧ t ≤ -45) := by
  have hkey : format_weather_message w current_date today hour minute
      = base_message w current_date ++ annex_part w today hour minute := rfl
  rw [hkey]
  rw [ne_eq, string_append_eq_self_iff]
  unfold annex_part
  by_cases hcond : today ≠ 6 ∧ (hour = 6 ∨ (hour = 7 ∧ minute ≤ 30))
  · rw [if_pos hcond, hparse]
    dsimp only
    by_cases ht : t ≤ -45
    · rw [if_pos ht]
      constructor
      · intro _
        exact ⟨hcond.1, hcond.2, ht⟩
      · intro _
        exact newlines_append_ne_empty _
    · rw [if_neg ht]
      constructor
      · intro hne
        exact absurd rfl hne
      · intro hc
        exact absurd hc.2.2 ht
  · rw [if_neg hcond]
    constructor
    · intro hne
      exact absurd rfl hne
    · intro hc
      exact absurd ⟨hc.1, hc.2.1⟩ hcond

theorem claim_c4_witness :
    (parse_temperature sample_record.temperature = some (-46)) ∧
      (format_weather_message sample_record "12.01.2026" 0 6 15
          ≠ base_message sample_record "12.01.2026"
        ↔ ((0 : ℕ) ≠ 6 ∧ ((6 : ℕ) = 6 ∨ ((6 : ℕ) = 7 ∧ (15 : ℕ) ≤ 30)) ∧
            (-46 : ℚ) ≤ -45)) ∧
      (format_weather_message sample_record "12.01.2026" 0 8 0
          ≠ base_message sample_record "12.01.2026"
        ↔ ((0 : ℕ) ≠ 6 ∧ ((8 : ℕ) = 6 ∨ ((8 : ℕ) = 7 ∧ (0 : ℕ) ≤ 30)) ∧
            (-46 : ℚ) ≤ -45)) :=
  ⟨by with_unfolding_all decide,
   claim_c4 sample_record "12.01.2026" 0 6 15 (-46) (by with_unfolding_all decide),
   claim_c4 sample_record "12.01.2026" 0 8 0 (-46) (by with_unfolding_all decide)⟩

end Meteo
